import Mathlib

/-!
Shallow embedding of the `nostr-hll` repository (NIP-45 HyperLogLog for Nostr)
and proofs about it.

Source files embedded:
* `src/hyperloglog.js` — the cardinality estimator (`HyperLogLog` class);
* `src/nip45.js` — the offset-derivation helpers
  (`isValid32ByteHex`, `getEventPubkeyOffsetsAndReferences`, `getFilterPubkeyOffset`).

Modelling conventions:
* `Uint8Array` register buffers become `List Nat` (entries are byte values).
  Out-of-bounds `Uint8Array` writes are silently ignored in JS, which matches
  `List.set` being the identity out of bounds; out-of-bounds reads yield
  `undefined`, and every comparison the code performs against `undefined`
  is `false`, which the embedding reproduces with explicit defaults.
* JS exceptions become `Except`/`Option` results.
* JS floating-point numbers are modelled exactly: values that the code only
  ever combines with field operations on dyadic rationals are modelled in `ℚ`,
  and the transcendental `Math.log` is modelled with `Real.log`.
* JS generators become eagerly built `List`s (order preserved).
-/

namespace NostrHLL

/-- The two exception kinds thrown by `hyperloglog.js` at construction time. -/
inductive HLLError where
  | invalidOffset
  | invalidRegisterCount
deriving DecidableEq

/-- The `HyperLogLog` class state: a numeric `offset` and the `registers`
byte buffer (created as `new Uint8Array(256)`). -/
structure HyperLogLog where
  offset : Nat
  registers : List Nat
deriving DecidableEq

/-- `constructor(offset)`: throws `invalid offset` unless `0 ≤ offset ≤ 32 - 8`,
otherwise creates the state with 256 zero registers. -/
def HyperLogLog.new (offset : Int) : Except HLLError HyperLogLog :=
  if offset < 0 ∨ offset > 32 - 8 then .error .invalidOffset
  else .ok ⟨offset.toNat, List.replicate 256 0⟩

/-- `static newWithRegisters(registers, offset)`: first runs the constructor,
then throws `invalid number of registers` unless the buffer has length 256,
and finally copies the buffer into the fresh state with `hll.registers.set`. -/
def HyperLogLog.newWithRegisters (registers : List Nat) (offset : Int) :
    Except HLLError HyperLogLog :=
  match HyperLogLog.new offset with
  | .error e => .error e
  | .ok hll =>
    if registers.length ≠ 256 then .error .invalidRegisterCount
    else .ok { hll with registers := registers }

/-- `getRegisters()` returns the register buffer. -/
def HyperLogLog.getRegisters (s : HyperLogLog) : List Nat :=
  s.registers

/-- `setRegisters(enc)` replaces the register buffer with the caller's buffer,
with no validation. -/
def HyperLogLog.setRegisters (s : HyperLogLog) (enc : List Nat) : HyperLogLog :=
  { s with registers := enc }

/-- The loop shared by `mergeRegisters` and `merge`: for each index `i` of
`other`, write `other[i]` into the receiver when it is larger.  Indices of
`other` beyond the receiver's length are dropped (in JS the read
`this.registers[i]` yields `undefined`, the comparison is `false`, and the
write would be ignored anyway); indices of the receiver beyond `other`'s
length are untouched. -/
def mergeRegList : List Nat → List Nat → List Nat
  | rs, [] => rs
  | [], _ :: _ => []
  | r :: rs, o :: os => max r o :: mergeRegList rs os

/-- `mergeRegisters(other)` for a raw buffer. -/
def HyperLogLog.mergeRegisters (s : HyperLogLog) (other : List Nat) : HyperLogLog :=
  { s with registers := mergeRegList s.registers other }

/-- `merge(other)` for another estimator. -/
def HyperLogLog.merge (s other : HyperLogLog) : HyperLogLog :=
  { s with registers := mergeRegList s.registers other.registers }

/-- `clear()`: `this.registers.fill(0)`. -/
def HyperLogLog.clear (s : HyperLogLog) : HyperLogLog :=
  { s with registers := List.replicate s.registers.length 0 }

/-- Big-endian interpretation of a byte list, as done by
`view.getBigUint64(0, false)` byte by byte. -/
def beUint64 (bytes : List Nat) : Nat :=
  bytes.foldl (fun acc b => acc * 256 + b) 0

/-- The loop body of `clz56`: `clz56From x n` scans bits `n-1, n-2, ..., 0`
of `x` from the top and counts how many zero bits appear before the first
set bit (all `n` of them if none is set).  `clz56From x 56` is the source's
`clz56(x)` (the mask starts at `1n << 55n` and is shifted right each step). -/
def clz56From (x : Nat) : Nat → Nat
  | 0 => 0
  | n + 1 => if x.testBit n then 0 else clz56From x n + 1

/-- `clz56(x)` from `src/hyperloglog.js`. -/
def clz56 (x : Nat) : Nat :=
  clz56From x 56

/-- `add(pubkey)`: takes the 8-byte window `pubkey.subarray(offset, offset+8)`,
uses its first byte as the register address `j`, decodes the window as a
big-endian 64-bit integer `w`, computes `zeroBits = clz56(w) + 1`, and raises
register `j` to `zeroBits` if that is larger.  When the window has fewer than
8 bytes (`pubkey.length < offset + 8`), `view.getBigUint64` throws a
`RangeError`; this is the `none` result. -/
def HyperLogLog.add (s : HyperLogLog) (pubkey : List Nat) : Option HyperLogLog :=
  let x := (pubkey.drop s.offset).take 8
  if x.length < 8 then none
  else
    let j := x.headD 0
    let w := beUint64 x
    let zeroBits := clz56 w + 1
    if zeroBits > s.registers.getD j 0 then
      some { s with registers := s.registers.set j zeroBits }
    else
      some s

/-- `countZeros(s)`: the number of registers equal to 0. -/
def countZeros (s : List Nat) : Nat :=
  s.countP (· == 0)

/-- `linearCounting(m, v) = m * Math.log(m / v)`. -/
noncomputable def linearCounting (m v : ℝ) : ℝ :=
  m * Real.log (m / v)

/-- `calculateEstimate()`: `0.7182725932495458 * 256 * 256 / Σ 1/2^registers[i]`.
All the arithmetic here is on dyadic rationals and the decimal constant, so it
is modelled exactly in `ℚ`. -/
def calculateEstimate (regs : List Nat) : ℚ :=
  (0.7182725932495458 * 256 * 256) / (regs.map fun val => 1 / 2 ^ val).sum

open Classical in
/-- `count()`: linear counting when some register is zero and the linear count
is at most 220; otherwise the raw estimate, except that a raw estimate of at
most `256 * 3` falls back to linear counting once more when `v != 0`.
All returned values go through `Math.floor`. -/
noncomputable def HyperLogLog.count (s : HyperLogLog) : Int :=
  let v := countZeros s.registers
  if v ≠ 0 ∧ linearCounting 256 (v : ℝ) ≤ 220 then
    ⌊linearCounting 256 (v : ℝ)⌋
  else
    let est := calculateEstimate s.registers
    if est ≤ 256 * 3 ∧ v ≠ 0 then ⌊linearCounting 256 (v : ℝ)⌋
    else ⌊est⌋

/-! Embedding of `src/nip45.js`. -/

/-- `isValid32ByteHex(str)`'s character class, the regex `[0-9a-fA-F]`,
written over code points (97–102 is `a`–`f`, 65–70 is `A`–`F`). -/
def isHexChar (c : Char) : Bool :=
  c.isDigit || (97 ≤ c.toNat && c.toNat ≤ 102) || (65 ≤ c.toNat && c.toNat ≤ 70)

/-- `isValid32ByteHex(str)`: a string of exactly 64 hex characters.
(The `typeof str === 'string'` check is carried by the type.) -/
def isValid32ByteHex (s : String) : Bool :=
  s.length == 64 && s.data.all isHexChar

/-- `parseInt(c, 16)` on a single character: the hex digit value, or `none`
for `NaN`.  Written over code points: digits start at 48, lowercase at 97,
uppercase at 65. -/
def hexDigit? (c : Char) : Option Nat :=
  if c.isDigit then some (c.toNat - 48)
  else if 97 ≤ c.toNat && c.toNat ≤ 102 then some (c.toNat - 97 + 10)
  else if 65 ≤ c.toNat && c.toNat ≤ 70 then some (c.toNat - 65 + 10)
  else none

/-- Total version of `hexDigit?` for positions already validated as hex. -/
def hexVal (c : Char) : Nat :=
  (hexDigit? c).getD 0

/-- An event as consumed by `getEventPubkeyOffsetsAndReferences`: only the
`kind` and `tags` fields are read. -/
structure Event where
  kind : Int
  tags : List (List String)

/-- `getEventPubkeyOffsetsAndReferences(evt)`: the generator's yields, in
order, as a list of `(reference, offset)` pairs.  Missing tag entries
(`tag[0]`/`tag[1]` on a too-short tag) are `undefined` in JS; every
comparison performed on them is false, which the defaults `""` reproduce
(`""` is neither `"p"`/`"e"`/`"E"` nor valid hex). -/
def getEventPubkeyOffsetsAndReferences (evt : Event) : List (String × Nat) :=
  if evt.kind = 3 then
    evt.tags.filterMap fun tag =>
      if 2 ≤ tag.length ∧ tag.getD 0 "" = "p" ∧ isValid32ByteHex (tag.getD 1 "") then
        some (tag.getD 1 "", hexVal ((tag.getD 1 "").data.getD 32 'x') + 8)
      else none
  else if evt.kind = 7 then
    match evt.tags.reverse.find? (fun t => t.getD 0 "" == "e") with
    | some lastE =>
      if isValid32ByteHex (lastE.getD 1 "") then
        [(lastE.getD 1 "", hexVal ((lastE.getD 1 "").data.getD 32 'x') + 8)]
      else []
    | none => []
  else if evt.kind = 1111 then
    match evt.tags.find? (fun t => t.getD 0 "" == "E") with
    | some e =>
      if isValid32ByteHex (e.getD 1 "") then
        [(e.getD 1 "", hexVal ((e.getD 1 "").data.getD 32 'x') + 8)]
      else []
    | none => []
  else []

/-- A filter as consumed by `getFilterPubkeyOffset`.  The JS object's
`#`-prefixed tag-selector properties (and any other extra properties) are
modelled as the association list `tags`, in object insertion order. -/
structure Filter where
  ids : Option (List String)
  authors : Option (List String)
  kinds : Option (List Int)
  since : Option Int
  untilT : Option Int
  limit : Option Int
  search : Option String
  tags : List (String × List String)

/-- JS truthiness of `f.x && f.x.length > 0` for an optional array field
(note an empty array is truthy; the length check does the work). -/
def presentNonempty {α : Type} (o : Option (List α)) : Bool :=
  match o with
  | none => false
  | some l => decide (0 < l.length)

/-- JS truthiness of an optional numeric field (`undefined` and `0` falsy). -/
def numTruthy (o : Option Int) : Bool :=
  match o with
  | none => false
  | some n => n != 0

/-- JS truthiness of an optional string field (`undefined` and `""` falsy). -/
def strTruthy (o : Option String) : Bool :=
  match o with
  | none => false
  | some s => s != ""

/-- `getFilterPubkeyOffset(filter)`: the deterministic pubkey offset for a
filter, or `-1` when the filter is not eligible. -/
def getFilterPubkeyOffset (f : Filter) : Int :=
  if presentNonempty f.ids then -1
  else if presentNonempty f.authors then -1
  else if numTruthy f.since then -1
  else if numTruthy f.untilT then -1
  else if strTruthy f.search then -1
  else if ¬ (f.kinds.elim false fun ks => ks.length == 1) then -1
  else
    let tagKeys := (f.tags.map Prod.fst).filter fun k => k.startsWith "#"
    if tagKeys.length ≠ 1 then -1
    else
      let tagKey := tagKeys.headD ""
      let tagValues := ((f.tags.find? fun kv => kv.1 == tagKey).map Prod.snd).getD []
      if tagValues.length ≠ 1 ∨ ¬ isValid32ByteHex (tagValues.headD "") then -1
      else
        let kind := (f.kinds.getD []).headD 0
        if tagKey = "#p" then
          if kind = 3 then
            match hexDigit? ((tagValues.headD "").data.getD 32 'x') with
            | none => -1
            | some p => p + 8
          else -1
        else if tagKey = "#e" then
          if kind = 7 then
            match hexDigit? ((tagValues.headD "").data.getD 32 'x') with
            | none => -1
            | some p => p + 8
          else -1
        else if tagKey = "#E" then
          if kind = 1111 then
            match hexDigit? ((tagValues.headD "").data.getD 32 'x') with
            | none => -1
            | some p => p + 8
          else -1
        else -1

/-! The two 256-byte register test vectors from `src/tests/hyperloglog.test.js`,
decoded from their 512-character hex strings (byte `i` is
`parseInt(hex.substring(i*2, i*2+2), 16)`). -/

/-- The register buffer of the Go-implementation test vector (expected
estimate 121). -/
def goVector : List Nat :=
  [1, 0, 0, 1, 1, 0, 0, 0, 0, 0, 0, 4, 0, 0, 0, 0, 1, 2, 0, 0, 0, 0, 2, 0, 0, 0, 0, 2, 0, 0, 0, 3,
  0, 0, 2, 4, 0, 0, 0, 1, 1, 2, 0, 1, 1, 0, 0, 0, 0, 0, 0, 0, 7, 0, 0, 4, 1, 0, 0, 0, 2, 0, 4, 0,
  0, 2, 4, 0, 0, 0, 0, 0, 1, 2, 0, 0, 2, 0, 0, 4, 1, 0, 0, 1, 0, 0, 0, 3, 1, 0, 1, 2, 3, 0, 2, 0,
  3, 1, 0, 3, 0, 1, 0, 0, 7, 0, 0, 0, 0, 1, 0, 0, 4, 0, 1, 2, 1, 0, 0, 0, 4, 0, 1, 0, 2, 0, 0, 0,
  0, 1, 3, 0, 1, 0, 1, 0, 1, 0, 0, 1, 4, 1, 0, 2, 0, 1, 0, 0, 0, 0, 0, 0, 1, 0, 0, 2, 0, 0, 0, 0,
  0, 3, 1, 0, 0, 0, 1, 0, 4, 0, 1, 0, 0, 0, 0, 0, 0, 9, 1, 1, 1, 0, 0, 0, 0, 4, 0, 0, 0, 11, 3, 0,
  0, 1, 1, 0, 1, 0, 0, 1, 0, 0, 1, 0, 0, 0, 0, 3, 0, 0, 0, 0, 0, 0, 1, 0, 3, 0, 1, 0, 2, 0, 0, 0,
  0, 0, 1, 0, 0, 1, 1, 0, 0, 1, 0, 0, 1, 4, 0, 2, 0, 3, 0, 1, 0, 3, 0, 0, 0, 1, 0, 1, 1, 0, 1, 2]

/-- The register buffer of the Rust-implementation test vector (expected
estimate 15070). -/
def rustVector : List Nat :=
  [6, 7, 7, 5, 5, 6, 8, 6, 5, 5, 8, 6, 7, 7, 7, 7, 6, 9, 13, 8, 11, 6, 5, 9, 6, 7, 7, 11, 7, 9, 6, 6,
  6, 11, 7, 5, 7, 7, 9, 5, 8, 7, 8, 8, 5, 8, 4, 7, 6, 9, 6, 8, 7, 7, 8, 5, 7, 7, 8, 5, 6, 5, 9, 4,
  10, 11, 6, 6, 7, 4, 6, 4, 5, 7, 7, 6, 8, 6, 7, 5, 9, 7, 7, 11, 8, 6, 8, 8, 8, 11, 8, 6, 7, 9, 10, 6,
  6, 8, 5, 6, 6, 4, 7, 9, 8, 5, 6, 7, 6, 8, 5, 5, 13, 5, 6, 9, 6, 9, 8, 9, 8, 8, 7, 5, 14, 7, 5, 7,
  5, 7, 6, 9, 7, 6, 6, 6, 7, 7, 8, 8, 11, 8, 7, 7, 7, 8, 8, 7, 6, 6, 6, 9, 8, 7, 5, 6, 6, 4, 6, 4,
  9, 7, 10, 8, 8, 5, 10, 5, 6, 5, 11, 8, 16, 6, 10, 9, 8, 7, 7, 9, 8, 11, 10, 7, 5, 8, 6, 6, 5, 8, 6, 6,
  7, 8, 6, 6, 8, 7, 7, 5, 8, 6, 8, 12, 10, 7, 7, 7, 10, 8, 8, 8, 5, 6, 8, 8, 15, 7, 5, 6, 7, 7, 6, 7,
  10, 9, 8, 9, 12, 8, 7, 8, 8, 8, 6, 9, 5, 8, 6, 6, 6, 9, 9, 6, 6, 13, 7, 5, 7, 8, 8, 4, 5, 7, 7, 8]

/-! Helper lemmas for evaluating `count` on the test vectors. -/

/-- The register sum `Σ 1/2^rᵢ` as a single fraction over a common
denominator `2^B`, with the numerator a natural-number computation. -/
theorem sum_pow_inv (regs : List Nat) (B : Nat) (h : ∀ r ∈ regs, r ≤ B) :
    (regs.map fun v => (1 : ℚ) / 2 ^ v).sum
      = ((regs.map fun v => 2 ^ (B - v)).sum : Nat) / (2 : ℚ) ^ B := by
  induction regs with
  | nil => simp
  | cons r rs ih =>
    have hr : r ≤ B := h r (List.mem_cons_self r rs)
    have hrs : ∀ x ∈ rs, x ≤ B := fun x hx => h x (List.mem_cons_of_mem r hx)
    have hpow : (2 : ℚ) ^ (B - r) * 2 ^ r = 2 ^ B := by
      rw [← pow_add, Nat.sub_add_cancel hr]
    have h2r : (2 : ℚ) ^ r ≠ 0 := by positivity
    have h2B : (2 : ℚ) ^ B ≠ 0 := by positivity
    have hterm : (1 : ℚ) / 2 ^ r = ((2 : Nat) ^ (B - r) : Nat) / (2 : ℚ) ^ B := by
      push_cast
      rw [div_eq_div_iff h2r h2B, one_mul, hpow]
    simp only [List.map_cons, List.sum_cons, ih hrs, hterm]
    push_cast
    ring

/-- `256 * log (256/159)` is at least 121: follows from
`e ^ 121 ≤ (256/159) ^ 256`, checked against `exp_one_lt_d9` by exact
integer arithmetic. -/
theorem le_lc159 : (121 : ℝ) ≤ 256 * Real.log (256 / 159) := by
  have hx : (0 : ℝ) < 256 / 159 := by norm_num
  have hnum : (2.7182818286 : ℝ) ^ (121 : Nat) ≤ ((256 : ℝ) / 159) ^ (256 : Nat) := by
    rw [div_pow]
    rw [le_div_iff₀ (by positivity)]
    norm_num
  have hexp : Real.exp 1 ^ (121 : Nat) < (2.7182818286 : ℝ) ^ (121 : Nat) := by
    apply pow_lt_pow_left₀ Real.exp_one_lt_d9 (le_of_lt (Real.exp_pos 1))
    norm_num
  have h121 : Real.exp 121 ≤ ((256 : ℝ) / 159) ^ (256 : Nat) := by
    have : Real.exp 121 = Real.exp 1 ^ (121 : Nat) := by
      rw [← Real.exp_nat_mul]; norm_num
    rw [this]
    exact le_of_lt (lt_of_lt_of_le hexp hnum)
  have hlog : (121 : ℝ) ≤ Real.log (((256 : ℝ) / 159) ^ (256 : Nat)) :=
    (Real.le_log_iff_exp_le (by positivity)).mpr h121
  rw [Real.log_pow] at hlog
  push_cast at hlog
  linarith

/-- `256 * log (256/159)` is less than 122: follows from
`(256/159) ^ 128 < e ^ 61`, checked against `exp_one_gt_d9` by exact
integer arithmetic. -/
theorem lc159_lt : 256 * Real.log (256 / 159) < 122 := by
  have hx : (0 : ℝ) < 256 / 159 := by norm_num
  have hnum : ((256 : ℝ) / 159) ^ (128 : Nat) < (2.7182818283 : ℝ) ^ (61 : Nat) := by
    rw [div_pow]
    rw [div_lt_iff₀ (by positivity)]
    norm_num
  have hexp : (2.7182818283 : ℝ) ^ (61 : Nat) < Real.exp 1 ^ (61 : Nat) := by
    apply pow_lt_pow_left₀ Real.exp_one_gt_d9 (by norm_num)
    norm_num
  have h61 : ((256 : ℝ) / 159) ^ (128 : Nat) < Real.exp 61 := by
    have : Real.exp 61 = Real.exp 1 ^ (61 : Nat) := by
      rw [← Real.exp_nat_mul]; norm_num
    rw [this]
    exact lt_trans hnum hexp
  have hlog : Real.log (((256 : ℝ) / 159) ^ (128 : Nat)) < 61 :=
    (Real.log_lt_iff_lt_exp (by positivity)).mpr h61
  rw [Real.log_pow] at hlog
  push_cast at hlog
  linarith

set_option maxRecDepth 4000 in
/-- On the Go test vector, `count()` takes the linear-counting branch
(`v = 159` zero registers) and returns `⌊256 * log (256/159)⌋ = 121`. -/
theorem count_goVector : HyperLogLog.count ⟨0, goVector⟩ = 121 := by
  have hv : countZeros goVector = 159 := by decide
  have h1 : (121 : ℝ) ≤ linearCounting 256 ((159 : Nat) : ℝ) := by
    unfold linearCounting; push_cast; exact le_lc159
  have h2 : linearCounting 256 ((159 : Nat) : ℝ) < 122 := by
    unfold linearCounting; push_cast; exact lc159_lt
  simp only [HyperLogLog.count, hv]
  rw [if_pos ⟨by norm_num, le_trans (le_of_lt h2) (by norm_num)⟩]
  rw [Int.floor_eq_iff]
  push_cast at h1 h2 ⊢
  exact ⟨h1, by linarith⟩

set_option maxRecDepth 4000 in
/-- The register sum of the Rust test vector, as an exact rational. -/
theorem sum_rustVector : (rustVector.map fun v => (1 : ℚ) / 2 ^ v).sum = 204703 / 65536 := by
  have hS : ((rustVector.map fun v => 2 ^ (16 - v)).sum : Nat) = 204703 := by decide
  rw [sum_pow_inv rustVector 16 (by decide), hS]
  norm_num

set_option maxRecDepth 4000 in
/-- On the Rust test vector, `count()` takes the raw-estimate branch
(no zero registers) and returns `⌊α · 256² / (204703/65536)⌋ = 15070`. -/
theorem count_rustVector : HyperLogLog.count ⟨0, rustVector⟩ = 15070 := by
  have hv : countZeros rustVector = 0 := by decide
  have hest : calculateEstimate rustVector
      = 0.7182725932495458 * 256 * 256 / (204703 / 65536) := by
    unfold calculateEstimate; rw [sum_rustVector]
  simp only [HyperLogLog.count, hv]
  rw [if_neg (fun h => h.1 rfl), if_neg (fun h => h.2 rfl)]
  rw [hest, Int.floor_eq_iff]
  constructor
  · norm_num
  · norm_num

set_option maxRecDepth 4000 in
/-- C3: For the specific 256-byte register buffer given as the first
512-character hex test vector, an Estimator reconstructed from it returns
estimate exactly 121; for the second 512-character hex test vector, the
reconstructed Estimator returns estimate exactly 15070. -/
theorem testVector_estimates :
    Except.map HyperLogLog.count (HyperLogLog.newWithRegisters goVector 0) = .ok 121 ∧
    Except.map HyperLogLog.count (HyperLogLog.newWithRegisters rustVector 0) = .ok 15070 := by
  have hgo : HyperLogLog.newWithRegisters goVector 0 = .ok ⟨0, goVector⟩ := rfl
  have hrust : HyperLogLog.newWithRegisters rustVector 0 = .ok ⟨0, rustVector⟩ := rfl
  rw [hgo, hrust]
  exact ⟨by simp [Except.map, count_goVector], by simp [Except.map, count_rustVector]⟩

/-! Spec-side definitions for the update rule (claim C1), following the
spec's wording in §4.1. -/

/-- The 8-byte window `key[offset .. offset+8)` that `update` reads. -/
def specWindow (key : List Nat) (offset : Nat) : List Nat :=
  (key.drop offset).take 8

/-- The window interpreted as a 64-bit unsigned integer in big-endian byte
order. -/
def specW (key : List Nat) (offset : Nat) : Nat :=
  beUint64 (specWindow key offset)

/-- The bucket index: the window's first byte, i.e. `w`'s most significant
byte. -/
def specJ (key : List Nat) (offset : Nat) : Nat :=
  specW key offset / 2 ^ 56

/-- The rank: `1 +` the number of leading zero bits among the low 56 bits of
`w` (all 56 when none is set).  A number below `2^56` has
`56 - Nat.size` leading zero bits in a 56-bit window. -/
def specRank (w : Nat) : Nat :=
  1 + (56 - Nat.size (w % 2 ^ 56))

/-- `clz56From x n` counts the leading zeros of the low `n` bits of `x`. -/
theorem clz56From_eq_size (x : Nat) : ∀ n, clz56From x n = n - Nat.size (x % 2 ^ n) := by
  intro n
  induction n with
  | zero => simp [clz56From]
  | succ n ih =>
    rw [clz56From]
    by_cases hb : x.testBit n
    · have hge : 2 ^ n ≤ x % 2 ^ (n + 1) := by
        have hbit : (x % 2 ^ (n + 1)).testBit n := by
          rw [Nat.testBit_mod_two_pow]
          simp [hb]
        exact Nat.testBit_implies_ge hbit
      have hsize : Nat.size (x % 2 ^ (n + 1)) = n + 1 := by
        have hub : Nat.size (x % 2 ^ (n + 1)) ≤ n + 1 :=
          Nat.size_le.mpr (Nat.mod_lt x (Nat.pos_pow_of_pos _ (by norm_num)))
        have hlb : n < Nat.size (x % 2 ^ (n + 1)) := Nat.lt_size.mpr hge
        omega
      simp [hb, hsize]
    · have hmod : x % 2 ^ (n + 1) = x % 2 ^ n := by
        have h2 : x % 2 ^ (n + 1) = x % 2 ^ n + 2 ^ n * (x / 2 ^ n % 2) := by
          rw [pow_succ, Nat.mod_mul]
        have hz : x / 2 ^ n % 2 = 0 := by
          have hdm := Nat.testBit_to_div_mod (x := x) (i := n)
          rw [hdm] at hb
          simp at hb
          omega
        rw [h2, hz]
        simp
      have hsz : Nat.size (x % 2 ^ n) ≤ n :=
        Nat.size_le.mpr (Nat.mod_lt x (Nat.pos_pow_of_pos _ (by norm_num)))
      rw [if_neg hb, ih, hmod]
      omega

/-- The folded big-endian value with accumulator `acc` splits off the
accumulator. -/
theorem beFold_acc (l : List Nat) :
    ∀ acc, l.foldl (fun a b => a * 256 + b) acc
      = acc * 256 ^ l.length + l.foldl (fun a b => a * 256 + b) 0 := by
  induction l with
  | nil => intro acc; simp
  | cons b l ih =>
    intro acc
    simp only [List.foldl_cons, List.length_cons]
    rw [ih (acc * 256 + b), ih (0 * 256 + b)]
    ring

/-- The big-endian value of a list of bytes is bounded by `256 ^ length`. -/
theorem beUint64_lt (l : List Nat) (h : ∀ b ∈ l, b < 256) :
    beUint64 l < 256 ^ l.length := by
  induction l with
  | nil => simp [beUint64]
  | cons b l ih =>
    have hb : b < 256 := h b (List.mem_cons_self b l)
    have hl : ∀ x ∈ l, x < 256 := fun x hx => h x (List.mem_cons_of_mem b hx)
    have hrec := ih hl
    unfold beUint64 at hrec ⊢
    simp only [List.foldl_cons, List.length_cons, Nat.zero_mul, Nat.zero_add]
    rw [beFold_acc l b]
    have : (b + 1) * 256 ^ l.length ≤ 256 ^ (l.length + 1) := by
      rw [pow_succ, mul_comm (256 ^ l.length) 256]
      exact Nat.mul_le_mul_right _ hb
    nlinarith [hrec]

/-- The most significant byte of an 8-byte big-endian value is the list
head. -/
theorem beUint64_div (b : Nat) (l : List Nat) (hlen : l.length = 7)
    (hl : ∀ x ∈ l, x < 256) : beUint64 (b :: l) / 2 ^ 56 = b := by
  have hrec : beUint64 l < 256 ^ (7 : Nat) := hlen ▸ beUint64_lt l hl
  have h256 : (256 : Nat) ^ (7 : Nat) = 2 ^ 56 := by norm_num
  unfold beUint64
  simp only [List.foldl_cons, Nat.zero_mul, Nat.zero_add]
  rw [beFold_acc l b, hlen]
  unfold beUint64 at hrec
  rw [h256] at hrec
  rw [h256, mul_comm b (2 ^ 56), Nat.mul_add_div (by positivity),
    Nat.div_eq_of_lt hrec, Nat.add_zero]

/-- The spec's update action: `registers[j] = max(registers[j], rank)`,
every other register unchanged. -/
def specUpdate (s : HyperLogLog) (key : List Nat) : HyperLogLog :=
  { s with registers := (s.registers.set (specJ key s.offset)
      (max (s.registers.getD (specJ key s.offset) 0) (specRank (specW key s.offset)))) }

/-- Setting an entry of a list to its current value is the identity. -/
theorem set_getD_self (l : List Nat) : ∀ j, j < l.length → l.set j (l.getD j 0) = l := by
  induction l with
  | nil => intro j hj; simp at hj
  | cons a l ih =>
    intro j hj
    cases j with
    | zero => simp
    | succ j =>
      simp only [List.set_cons_succ, List.getD_cons_succ]
      rw [ih j (by simpa using hj)]

/-- C1: For every Estimator with offset in `[0,24]` and every 32-byte key,
`update(key)` reads the window `key[offset..offset+8)`, interprets it as a
big-endian 64-bit integer `w`, takes the bucket index `j` to be the window's
first byte (0–255), computes the rank as `1 +` the number of leading zeros
of the low 56 bits of `w` (at most 57), and sets `registers[j]` to
`max(registers[j], rank)`, leaving every other register unchanged. -/
theorem add_matches_spec (s : HyperLogLog) (key : List Nat)
    (hoff : s.offset ≤ 24) (hkey : key.length = 32)
    (hreg : s.registers.length = 256) (hbytes : ∀ b ∈ key, b < 256) :
    s.add key = some (specUpdate s key) ∧
    specJ key s.offset < 256 ∧
    specRank (specW key s.offset) ≤ 57 ∧
    ∀ i, i ≠ specJ key s.offset →
      (specUpdate s key).registers.getD i 0 = s.registers.getD i 0 := by
  have hxlen : ((key.drop s.offset).take 8).length = 8 := by
    rw [List.length_take, List.length_drop, hkey]
    omega
  have hxsub : ∀ b ∈ (key.drop s.offset).take 8, b < 256 := by
    intro b hb
    exact hbytes b (List.drop_subset _ _ (List.take_subset _ _ hb))
  obtain ⟨b, t, hx⟩ : ∃ b t, (key.drop s.offset).take 8 = b :: t := by
    cases hxc : (key.drop s.offset).take 8 with
    | nil => rw [hxc] at hxlen; simp at hxlen
    | cons b t => exact ⟨b, t, rfl⟩
  have htlen : t.length = 7 := by
    rw [hx] at hxlen; simpa using hxlen
  have htbytes : ∀ c ∈ t, c < 256 := fun c hc => hxsub c (hx ▸ List.mem_cons_of_mem b hc)
  have hblt : b < 256 := hxsub b (hx ▸ List.mem_cons_self b t)
  have hw' : specW key s.offset = beUint64 (b :: t) := by
    unfold specW specWindow
    rw [hx]
  have hj : specJ key s.offset = b := by
    unfold specJ
    rw [hw']
    exact beUint64_div b t htlen htbytes
  have hzb : specRank (specW key s.offset) = clz56 (beUint64 (b :: t)) + 1 := by
    unfold specRank clz56
    rw [hw', clz56From_eq_size]
    omega
  have hjlt : specJ key s.offset < 256 := hj ▸ hblt
  have hranke : specRank (specW key s.offset) ≤ 57 := by
    unfold specRank
    omega
  refine ⟨?_, hjlt, hranke, ?_⟩
  · simp only [HyperLogLog.add, hx]
    rw [if_neg (by rw [hx] at hxlen; rw [hxlen]; omega)]
    simp only [List.headD_cons]
    by_cases hcmp : clz56 (beUint64 (b :: t)) + 1 > s.registers.getD b 0
    · rw [if_pos hcmp]
      unfold specUpdate
      rw [hj, hzb, max_eq_right (Nat.le_of_lt hcmp)]
    · rw [if_neg hcmp]
      unfold specUpdate
      rw [hj, hzb, max_eq_left (by omega)]
      rw [set_getD_self s.registers b (by omega)]
  · intro i hi
    unfold specUpdate
    simp only [List.getD_eq_getElem?_getD]
    rw [List.getElem?_set_ne (fun he => hi he.symm)]

/-! Lemmas about the merge loop. -/

/-- The merge loop preserves the receiver's length. -/
theorem mergeRegList_length : ∀ a b : List Nat, (mergeRegList a b).length = a.length
  | [], [] => rfl
  | _ :: _, [] => rfl
  | [], _ :: _ => rfl
  | r :: rs, o :: os => by
    simp only [mergeRegList, List.length_cons, mergeRegList_length rs os]

/-- On equal-length lists the merge loop is the pointwise maximum. -/
theorem mergeRegList_getD : ∀ (a b : List Nat), a.length = b.length → ∀ i,
    (mergeRegList a b).getD i 0 = max (a.getD i 0) (b.getD i 0)
  | [], [], _, i => by simp [mergeRegList]
  | [], _ :: _, h, _ => by simp at h
  | _ :: _, [], h, _ => by simp at h
  | r :: rs, o :: os, h, i => by
    cases i with
    | zero => simp [mergeRegList]
    | succ i =>
      simp only [mergeRegList, List.getD_cons_succ]
      exact mergeRegList_getD rs os (by simpa using h) i

/-- The merge loop is commutative on equal-length lists. -/
theorem mergeRegList_comm : ∀ a b : List Nat, a.length = b.length →
    mergeRegList a b = mergeRegList b a
  | [], [], _ => rfl
  | [], _ :: _, h => by simp at h
  | _ :: _, [], h => by simp at h
  | r :: rs, o :: os, h => by
    simp only [mergeRegList, List.cons.injEq]
    exact ⟨max_comm r o, mergeRegList_comm rs os (by simpa using h)⟩

/-- The merge loop is associative on equal-length lists. -/
theorem mergeRegList_assoc : ∀ a b c : List Nat, a.length = b.length → b.length = c.length →
    mergeRegList (mergeRegList a b) c = mergeRegList a (mergeRegList b c)
  | [], [], [], _, _ => rfl
  | [], _ :: _, _, h, _ => by simp at h
  | _ :: _, [], _, h, _ => by simp at h
  | _ :: _, _ :: _, [], _, h => by simp at h
  | r :: rs, o :: os, q :: qs, h1, h2 => by
    simp only [mergeRegList, List.cons.injEq]
    exact ⟨max_assoc r o q,
      mergeRegList_assoc rs os qs (by simpa using h1) (by simpa using h2)⟩

/-- The merge loop is idempotent. -/
theorem mergeRegList_idem : ∀ a : List Nat, mergeRegList a a = a
  | [] => rfl
  | r :: rs => by
    simp only [mergeRegList, List.cons.injEq]
    exact ⟨max_self r, mergeRegList_idem rs⟩

/-- General pointwise description of the merge loop, including buffers whose
length differs from the receiver's. -/
theorem mergeRegList_getD_general : ∀ (a b : List Nat) (i : Nat), i < a.length →
    (mergeRegList a b).getD i 0 =
      if i < b.length then max (a.getD i 0) (b.getD i 0) else a.getD i 0
  | [], _, i, hi => by simp at hi
  | _ :: _, [], i, _ => by simp [mergeRegList]
  | r :: rs, o :: os, 0, _ => by simp [mergeRegList]
  | r :: rs, o :: os, i + 1, hi => by
    simp only [mergeRegList, List.getD_cons_succ, List.length_cons]
    rw [mergeRegList_getD_general rs os i (by simpa using hi)]
    by_cases h : i < os.length
    · rw [if_pos h, if_pos (by omega)]
    · rw [if_neg h, if_neg (by omega)]

/-- C4: `merge` computes the elementwise maximum of the two register sets,
and as an operation on length-256 register states it is commutative,
associative, and idempotent. -/
theorem merge_spec (s t u : HyperLogLog)
    (hs : s.registers.length = 256) (ht : t.registers.length = 256)
    (hu : u.registers.length = 256) :
    (∀ i, (s.merge t).registers.getD i 0
        = max (s.registers.getD i 0) (t.registers.getD i 0)) ∧
    (s.merge t).registers = (t.merge s).registers ∧
    ((s.merge t).merge u).registers = (s.merge (t.merge u)).registers ∧
    (s.merge s).registers = s.registers := by
  refine ⟨fun i => mergeRegList_getD _ _ (hs.trans ht.symm) i,
    mergeRegList_comm _ _ (hs.trans ht.symm), ?_, mergeRegList_idem _⟩
  show mergeRegList (mergeRegList s.registers t.registers) u.registers
      = mergeRegList s.registers (mergeRegList t.registers u.registers)
  exact mergeRegList_assoc _ _ _ (hs.trans ht.symm) (ht.trans hu.symm)

/-- Witness for C4 at concrete length-256 register states. -/
theorem merge_spec_witness :
    (⟨0, List.replicate 256 1⟩ : HyperLogLog).registers.length = 256 ∧
    (⟨0, List.replicate 256 2⟩ : HyperLogLog).registers.length = 256 ∧
    (⟨0, List.replicate 256 3⟩ : HyperLogLog).registers.length = 256 ∧
    ((⟨0, List.replicate 256 1⟩ : HyperLogLog).merge ⟨0, List.replicate 256 2⟩).registers
      = ((⟨0, List.replicate 256 2⟩ : HyperLogLog).merge ⟨0, List.replicate 256 1⟩).registers := by
  have h := merge_spec ⟨0, List.replicate 256 1⟩ ⟨0, List.replicate 256 2⟩
    ⟨0, List.replicate 256 3⟩ (List.length_replicate _ _) (List.length_replicate _ _)
    (List.length_replicate _ _)
  exact ⟨(List.length_replicate _ _), (List.length_replicate _ _), (List.length_replicate _ _), h.2.1⟩

/-- C10: `mergeRegisters` performs no length validation: for a raw buffer of
any length `n`, exactly the registers at indices `i < min n 256` are updated
to the maximum, registers at indices `≥ n` are unchanged, and no error is
raised (the operation is total). -/
theorem mergeRegisters_partial (s : HyperLogLog) (buf : List Nat)
    (hreg : s.registers.length = 256) :
    (s.mergeRegisters buf).registers.length = 256 ∧
    ∀ i < 256,
      (s.mergeRegisters buf).registers.getD i 0 =
        if i < min buf.length 256 then max (s.registers.getD i 0) (buf.getD i 0)
        else s.registers.getD i 0 := by
  constructor
  · show (mergeRegList s.registers buf).length = 256
    rw [mergeRegList_length, hreg]
  · intro i hi
    show (mergeRegList s.registers buf).getD i 0 = _
    rw [mergeRegList_getD_general s.registers buf i (by omega)]
    by_cases hb : i < buf.length
    · rw [if_pos hb, if_pos (by omega)]
    · rw [if_neg hb, if_neg (by omega)]

/-- Witness for C10: a 2-byte buffer merged into a fresh estimator updates
exactly indices 0 and 1. -/
theorem mergeRegisters_partial_witness :
    (⟨0, List.replicate 256 0⟩ : HyperLogLog).registers.length = 256 ∧
    ((⟨0, List.replicate 256 0⟩ : HyperLogLog).mergeRegisters [5, 6]).registers.length = 256 := by
  have h := mergeRegisters_partial ⟨0, List.replicate 256 0⟩ [5, 6] (List.length_replicate _ _)
  exact ⟨(List.length_replicate _ _), h.1⟩

/-- C7 counterexample: the claim says `update` never raises for any input,
but the estimator constructed with offset 0 raises on a too-short key (in JS,
`view.getBigUint64` throws a `RangeError` when the window has fewer than
8 bytes). -/
theorem update_raises_on_short_key :
    Except.map (fun h => h.add []) (HyperLogLog.new 0) = .ok none := by
  rfl

/-- C7 (amended): `create(offset)` fails with `InvalidOffsetError` iff the
offset is outside `[0,24]`; `createFromRegisters` fails with
`InvalidRegisterCountError` iff the offset is valid and the buffer's length
is not 256; and `update(key)` succeeds iff `offset + 8 ≤ key.length` (in
particular it never fails on 32-byte keys, and merge, mergeRegisters, clear,
estimate, getRegisters, setRegisters are total). -/
theorem failure_conditions (o : Int) (regs : List Nat) (s : HyperLogLog)
    (key : List Nat) :
    (HyperLogLog.new o = .error .invalidOffset ↔ (o < 0 ∨ 24 < o)) ∧
    (HyperLogLog.newWithRegisters regs o = .error .invalidRegisterCount ↔
      (0 ≤ o ∧ o ≤ 24 ∧ regs.length ≠ 256)) ∧
    ((s.add key).isSome ↔ s.offset + 8 ≤ key.length) := by
  refine ⟨?_, ?_, ?_⟩
  · unfold HyperLogLog.new
    by_cases h : o < 0 ∨ o > 32 - 8
    · rw [if_pos h]
      exact ⟨fun _ => by omega, fun _ => rfl⟩
    · rw [if_neg h]
      constructor
      · intro hx; exact Except.noConfusion hx
      · intro hx; omega
  · unfold HyperLogLog.newWithRegisters HyperLogLog.new
    by_cases h : o < 0 ∨ o > 32 - 8
    · rw [if_pos h]
      show Except.error HLLError.invalidOffset = .error .invalidRegisterCount ↔ _
      constructor
      · intro hx; exact Except.noConfusion hx fun he => HLLError.noConfusion he
      · intro hx; omega
    · rw [if_neg h]
      show (if regs.length ≠ 256 then Except.error HLLError.invalidRegisterCount
        else Except.ok (⟨o.toNat, regs⟩ : HyperLogLog)) = .error .invalidRegisterCount ↔ _
      by_cases hlen : regs.length ≠ 256
      · rw [if_pos hlen]
        exact ⟨fun _ => ⟨by omega, by omega, hlen⟩, fun _ => rfl⟩
      · rw [if_neg hlen]
        constructor
        · intro hx; exact Except.noConfusion hx
        · intro hx; exact absurd hx.2.2 hlen
  · by_cases h : s.offset + 8 ≤ key.length
    · have hxl : ¬ ((key.drop s.offset).take 8).length < 8 := by
        rw [List.length_take, List.length_drop]
        omega
      simp only [HyperLogLog.add]
      rw [if_neg hxl]
      simp only [h, iff_true]
      by_cases hc : clz56 (beUint64 ((key.drop s.offset).take 8)) + 1
          > s.registers.getD (((key.drop s.offset).take 8).headD 0) 0
      · rw [if_pos hc]; rfl
      · rw [if_neg hc]; rfl
    · have hxl : ((key.drop s.offset).take 8).length < 8 := by
        rw [List.length_take, List.length_drop]
        omega
      simp only [HyperLogLog.add]
      rw [if_pos hxl]
      simp [h]

/-- C8 counterexample: `setRegisters` with an empty buffer leaves an
estimator (freshly constructed, hence with 256 registers) whose register set
no longer has length 256. -/
theorem setRegisters_breaks_length :
    Except.map (fun h => (h.setRegisters []).registers.length) (HyperLogLog.new 0)
      = .ok 0 := by
  rfl

/-- C8 (amended): both constructors establish register length 256; `update`,
`merge`, `mergeRegisters` and `clear` preserve the register length for every
input; `setRegisters` sets the register length to its input's length (so it
preserves 256 only for length-256 inputs). -/
theorem register_length_invariant (s : HyperLogLog) (key regs bs : List Nat)
    (other : HyperLogLog) (o : Int) :
    (∀ s', s.add key = some s' → s'.registers.length = s.registers.length) ∧
    (s.merge other).registers.length = s.registers.length ∧
    (s.mergeRegisters regs).registers.length = s.registers.length ∧
    s.clear.registers.length = s.registers.length ∧
    (s.setRegisters regs).registers.length = regs.length ∧
    (∀ s', HyperLogLog.new o = .ok s' → s'.registers.length = 256) ∧
    (∀ s', HyperLogLog.newWithRegisters bs o = .ok s' → s'.registers.length = 256) := by
  refine ⟨?_, mergeRegList_length _ _, mergeRegList_length _ _,
    List.length_replicate _ _, rfl, ?_, ?_⟩
  · intro s' h
    simp only [HyperLogLog.add] at h
    split at h
    · exact absurd h (by simp)
    · split at h
      · cases h
        exact List.length_set _ _ _
      · cases h
        rfl
  · intro s' h
    unfold HyperLogLog.new at h
    split at h
    · exact absurd h (by simp)
    · cases h
      exact List.length_replicate _ _
  · intro s' h
    unfold HyperLogLog.newWithRegisters HyperLogLog.new at h
    split at h
    · exact absurd h (by simp)
    · split at h
      · exact absurd h (by simp)
      · rename_i hlen
        cases h
        simpa using hlen

/-- C9: Round-trip: reconstructing an estimator from `getRegisters` and the
same offset succeeds, yields an estimator with the same registers, and its
`estimate()` equals the original's. -/
theorem roundTrip (s : HyperLogLog) (hoff : s.offset ≤ 24)
    (hreg : s.registers.length = 256) :
    ∃ s', HyperLogLog.newWithRegisters s.getRegisters (s.offset : Int) = .ok s' ∧
      s'.count = s.count ∧ s'.registers = s.registers := by
  refine ⟨s, ?_, rfl, rfl⟩
  unfold HyperLogLog.newWithRegisters HyperLogLog.new
  rw [if_neg (by omega)]
  show (if s.getRegisters.length ≠ 256 then Except.error HLLError.invalidRegisterCount
    else Except.ok ⟨((s.offset : Int)).toNat, s.getRegisters⟩) = Except.ok s
  rw [if_neg (fun hne => hne hreg), Int.toNat_natCast]
  rfl

set_option maxRecDepth 2000 in
/-- Witness for C9 at a concrete estimator. -/
theorem roundTrip_witness :
    (⟨0, List.replicate 256 0⟩ : HyperLogLog).offset ≤ 24 ∧
    (⟨0, List.replicate 256 0⟩ : HyperLogLog).registers.length = 256 ∧
    ∃ s', HyperLogLog.newWithRegisters
        (⟨0, List.replicate 256 0⟩ : HyperLogLog).getRegisters 0 = .ok s' ∧
      s'.count = HyperLogLog.count ⟨0, List.replicate 256 0⟩ ∧
      s'.registers = (⟨0, List.replicate 256 0⟩ : HyperLogLog).registers := by
  exact ⟨by decide, List.length_replicate _ _,
    roundTrip ⟨0, List.replicate 256 0⟩ (by decide) (List.length_replicate _ _)⟩

set_option maxRecDepth 2000 in
/-- Witness for C1: the all-zero key into a fresh estimator. -/
theorem add_matches_spec_witness :
    ((⟨0, List.replicate 256 0⟩ : HyperLogLog).offset ≤ 24 ∧
     (List.replicate 32 0).length = 32 ∧
     (⟨0, List.replicate 256 0⟩ : HyperLogLog).registers.length = 256) ∧
    HyperLogLog.add ⟨0, List.replicate 256 0⟩ (List.replicate 32 0)
      = some (specUpdate ⟨0, List.replicate 256 0⟩ (List.replicate 32 0)) := by
  refine ⟨⟨by decide, List.length_replicate _ _, List.length_replicate _ _⟩, ?_⟩
  exact (add_matches_spec ⟨0, List.replicate 256 0⟩ (List.replicate 32 0) (by decide)
    (List.length_replicate _ _) (List.length_replicate _ _)
    (fun b hb => by rw [List.eq_of_mem_replicate hb]; norm_num)).1

open Classical in
/-- The estimate procedure exactly as the spec's §4.1 words it:
with `m = 256`, `alpha = 0.7182725932495458`, `LC_MAX = 220`,
`RAW_MAX = 768`, and `v` the number of zero registers:
linear counting when `v ≠ 0` and the linear count is at most `LC_MAX`;
otherwise the raw estimate `E = alpha * m² / Σᵢ 2^(-registers[i])`, except
that when `E ≤ RAW_MAX` and `v ≠ 0` the floor of the linear count is
returned again (the duplicated branch is preserved). -/
noncomputable def countSpec (regs : List Nat) : Int :=
  let m : ℝ := 256
  let alpha : ℝ := 0.7182725932495458
  let v : Nat := countZeros regs
  let linearCount : ℝ := m * Real.log (m / v)
  let E : ℝ := alpha * m ^ 2 / (regs.map fun r : Nat => (2 : ℝ) ^ (-(r : Int))).sum
  if v ≠ 0 ∧ linearCount ≤ 220 then ⌊linearCount⌋
  else if E ≤ 768 ∧ v ≠ 0 then ⌊linearCount⌋
  else ⌊E⌋

/-- Casting the exact rational register sum to `ℝ` gives the spec's
`Σᵢ 2^(-registers[i])`. -/
theorem cast_sum_pow : ∀ regs : List Nat,
    (((regs.map fun v => (1 : ℚ) / 2 ^ v).sum : ℚ) : ℝ)
      = (regs.map fun r : Nat => (2 : ℝ) ^ (-(r : Int))).sum := by
  intro regs
  induction regs with
  | nil => simp
  | cons r rs ih =>
    simp only [List.map_cons, List.sum_cons, Rat.cast_add, ih]
    congr 1
    rw [zpow_neg, zpow_natCast, Rat.cast_div, Rat.cast_one, Rat.cast_pow]
    norm_num

/-- C2: For every 256-register state, `estimate()` follows exactly the
spec's control flow with `m = 256`, `alpha = 0.7182725932495458`,
`LC_MAX = 220`, `RAW_MAX = 768`, including the duplicated linear-counting
branch. -/
theorem count_eq_countSpec (s : HyperLogLog) (_hlen : s.registers.length = 256) :
    s.count = countSpec s.registers := by
  have hE : ((calculateEstimate s.registers : ℚ) : ℝ)
      = (0.7182725932495458 : ℝ) * 256 ^ 2
          / ((s.registers.map fun r : Nat => (2 : ℝ) ^ (-(r : Int))).sum) := by
    unfold calculateEstimate
    rw [Rat.cast_div, cast_sum_pow]
    norm_num
  have hc2 : (calculateEstimate s.registers ≤ 256 * 3) ↔
      ((0.7182725932495458 : ℝ) * 256 ^ 2
          / ((s.registers.map fun r : Nat => (2 : ℝ) ^ (-(r : Int))).sum) ≤ 768) := by
    rw [← hE]
    constructor
    · intro hx
      calc ((calculateEstimate s.registers : ℚ) : ℝ) ≤ ((256 * 3 : ℚ) : ℝ) := by
            exact_mod_cast hx
        _ = 768 := by norm_num
    · intro hx
      have : ((calculateEstimate s.registers : ℚ) : ℝ) ≤ ((256 * 3 : ℚ) : ℝ) := by
        convert hx using 2
        norm_num
      exact_mod_cast this
  have hfloor : (⌊calculateEstimate s.registers⌋ : Int)
      = ⌊(0.7182725932495458 : ℝ) * 256 ^ 2
          / ((s.registers.map fun r : Nat => (2 : ℝ) ^ (-(r : Int))).sum)⌋ := by
    rw [← hE, Rat.floor_cast]
  simp only [HyperLogLog.count, countSpec, linearCounting]
  simp only [hc2, hfloor]

/-- Witness for C2 at a concrete 256-register state. -/
theorem count_eq_countSpec_witness :
    (⟨0, List.replicate 256 0⟩ : HyperLogLog).registers.length = 256 ∧
    HyperLogLog.count ⟨0, List.replicate 256 0⟩
      = countSpec (⟨0, List.replicate 256 0⟩ : HyperLogLog).registers := by
  exact ⟨List.length_replicate _ _,
    count_eq_countSpec ⟨0, List.replicate 256 0⟩ (List.length_replicate _ _)⟩

/-! Spec-side definitions for the event contribution rule (claim C6),
following the spec's §4.2 wording. -/

/-- `deriveOffsetFromNibble`: the hex digit at index 32 of the reference,
plus 8. -/
def specOffsetOf (s : String) : Nat :=
  hexVal (s.data.getD 32 'x') + 8

/-- `deriveEventContributions` as the spec words it: kind 3 yields one pair
per tag whose first element is `"p"` and second element a valid hex key, in
tag order; kind 7 yields at most one pair, from the last tag whose first
element is `"e"`; kind 1111 from the first tag whose first element is `"E"`;
any other kind yields nothing. -/
def specEventContributions (evt : Event) : List (String × Nat) :=
  if evt.kind = 3 then
    evt.tags.filterMap fun tag =>
      if tag.getD 0 "" = "p" ∧ isValid32ByteHex (tag.getD 1 "") then
        some (tag.getD 1 "", specOffsetOf (tag.getD 1 ""))
      else none
  else if evt.kind = 7 then
    match (evt.tags.filter fun t => t.getD 0 "" == "e").getLast? with
    | some lastE =>
      if isValid32ByteHex (lastE.getD 1 "") then
        [(lastE.getD 1 "", specOffsetOf (lastE.getD 1 ""))]
      else []
    | none => []
  else if evt.kind = 1111 then
    match (evt.tags.filter fun t => t.getD 0 "" == "E").head? with
    | some e =>
      if isValid32ByteHex (e.getD 1 "") then
        [(e.getD 1 "", specOffsetOf (e.getD 1 ""))]
      else []
    | none => []
  else []

/-- `getLast?` of a cons, through `Option.or`. -/
theorem getLast?_cons_eq_or {α : Type} (a : α) :
    ∀ l : List α, (a :: l).getLast? = l.getLast?.or (some a)
  | [] => rfl
  | b :: t => by
    rw [List.getLast?_cons_cons, getLast?_cons_eq_or b t, Option.or_assoc, Option.or_some]

/-- Scanning a list from the end for the first match is taking the last
element of the filtered list. -/
theorem find?_reverse {α : Type} (p : α → Bool) :
    ∀ l : List α, l.reverse.find? p = (l.filter p).getLast?
  | [] => rfl
  | a :: l => by
    rw [List.reverse_cons, List.find?_append, find?_reverse p l]
    by_cases hp : p a
    · rw [List.filter_cons_of_pos hp, getLast?_cons_eq_or,
        List.find?_cons_of_pos _ hp]
    · rw [List.filter_cons_of_neg hp, List.find?_cons_of_neg _ hp, List.find?_nil,
        Option.or_none]

/-- Scanning a list from the start for the first match is taking the head
of the filtered list. -/
theorem find?_eq_head?_filter {α : Type} (p : α → Bool) :
    ∀ l : List α, l.find? p = (l.filter p).head?
  | [] => rfl
  | a :: l => by
    by_cases hp : p a
    · rw [List.find?_cons_of_pos _ hp, List.filter_cons_of_pos hp, List.head?_cons]
    · rw [List.find?_cons_of_neg _ hp, List.filter_cons_of_neg hp,
        find?_eq_head?_filter p l]

/-- A tag whose second entry is valid hex has at least two entries (the
default `""` for a missing entry is not valid hex). -/
theorem length_of_valid_getD {tag : List String}
    (h : isValid32ByteHex (tag.getD 1 "") = true) : 2 ≤ tag.length := by
  by_contra hlt
  push_neg at hlt
  rw [List.getD_eq_default] at h
  · exact absurd h (by decide)
  · omega

/-- C6: `getEventPubkeyOffsetsAndReferences` yields exactly the pairs the
spec describes: per-tag for kind 3, the last `"e"` tag for kind 7, the first
`"E"` tag for kind 1111, nothing otherwise, with every offset equal to the
hex digit at index 32 of the reference plus 8. -/
theorem eventContributions_match_spec (evt : Event) :
    getEventPubkeyOffsetsAndReferences evt = specEventContributions evt := by
  unfold getEventPubkeyOffsetsAndReferences specEventContributions
  by_cases h3 : evt.kind = 3
  · rw [if_pos h3, if_pos h3]
    congr 1
    funext tag
    by_cases hcond : tag.getD 0 "" = "p" ∧ isValid32ByteHex (tag.getD 1 "") = true
    · rw [if_pos ⟨length_of_valid_getD hcond.2, hcond.1, hcond.2⟩, if_pos hcond]
      rfl
    · rw [if_neg (fun hc => hcond ⟨hc.2.1, hc.2.2⟩), if_neg hcond]
  · rw [if_neg h3, if_neg h3]
    by_cases h7 : evt.kind = 7
    · rw [if_pos h7, if_pos h7, find?_reverse]
      rfl
    · rw [if_neg h7, if_neg h7]
      by_cases h1111 : evt.kind = 1111
      · rw [if_pos h1111, if_pos h1111, find?_eq_head?_filter]
        rfl
      · rw [if_neg h1111, if_neg h1111]

/-! Spec-side definitions for the filter eligibility rule (claim C5),
following the spec's §4.2 conditions 1–9. -/

/-- Spec conditions 1–2: the optional list field is absent or empty. -/
def absentOrEmpty {α : Type} (o : Option (List α)) : Bool :=
  match o with
  | none => true
  | some l => l.isEmpty

/-- Spec conditions 3–4: the optional numeric field is absent or zero. -/
def absentOrZero (o : Option Int) : Bool :=
  match o with
  | none => true
  | some n => n == 0

/-- Spec condition 5: the optional string field is absent or empty. -/
def absentOrBlank (o : Option String) : Bool :=
  match o with
  | none => true
  | some s => s == ""

/-- Spec condition 6: the kind list has exactly one element. -/
def singleKind (o : Option (List Int)) : Bool :=
  match o with
  | none => false
  | some ks => ks.length == 1

/-- Spec condition 7's subject: the filter's tag-selector entries, the
key/value pairs whose key begins with `#`, in object order. -/
def specFilterTagPairs (f : Filter) : List (String × List String) :=
  f.tags.filter fun kv => kv.1.startsWith "#"

/-- Spec eligibility, conditions 1–9 of §4.2: `ids`, `authors` absent/empty,
`since`, `until` absent/zero, `search` absent/empty, exactly one kind,
exactly one tag-selector key, its value list a single valid hex key, and the
(tag key, kind) pair one of `("#p",3)`, `("#e",7)`, `("#E",1111)`. -/
def specFilterEligible (f : Filter) : Bool :=
  absentOrEmpty f.ids &&
  absentOrEmpty f.authors &&
  absentOrZero f.since &&
  absentOrZero f.untilT &&
  absentOrBlank f.search &&
  singleKind f.kinds &&
  ((specFilterTagPairs f).length == 1) &&
  (((specFilterTagPairs f).headD ("", [])).2.length == 1) &&
  isValid32ByteHex (((specFilterTagPairs f).headD ("", [])).2.headD "") &&
  ((((specFilterTagPairs f).headD ("", [])).1 == "#p"
      && (f.kinds.getD []).headD 0 == 3) ||
   (((specFilterTagPairs f).headD ("", [])).1 == "#e"
      && (f.kinds.getD []).headD 0 == 7) ||
   (((specFilterTagPairs f).headD ("", [])).1 == "#E"
      && (f.kinds.getD []).headD 0 == 1111))

/-- The offset an eligible filter derives: the hex digit at index 32 of the
single tag value, plus 8. -/
def specFilterOffset (f : Filter) : Int :=
  hexVal ((((specFilterTagPairs f).headD ("", [])).2.headD "").data.getD 32 'x') + 8

/-- "Absent or empty" is the negation of the JS truthiness check. -/
theorem absentOrEmpty_eq {α : Type} (o : Option (List α)) :
    absentOrEmpty o = ! presentNonempty o := by
  cases o with
  | none => rfl
  | some l =>
    cases l with
    | nil => rfl
    | cons a t =>
      show false = ! decide (0 < t.length + 1)
      rw [decide_eq_true (by omega)]
      rfl

/-- "Absent or zero" is the negation of the JS truthiness check. -/
theorem absentOrZero_eq (o : Option Int) : absentOrZero o = ! numTruthy o := by
  cases o with
  | none => rfl
  | some n =>
    show (n == 0) = !(n != 0)
    simp [bne]

/-- "Absent or blank" is the negation of the JS truthiness check. -/
theorem absentOrBlank_eq (o : Option String) : absentOrBlank o = ! strTruthy o := by
  cases o with
  | none => rfl
  | some s =>
    show (s == "") = !(s != "")
    simp [bne]

/-- The spec's single-kind condition is the source's `Option.elim` check. -/
theorem singleKind_eq (o : Option (List Int)) :
    singleKind o = o.elim false fun ks => ks.length == 1 := by
  cases o <;> rfl

/-- If the `#`-filtered pair list is the singleton `[kv]`, the object lookup
by `kv`'s key finds exactly `kv` (keys of earlier pairs do not begin with
`#`, so they differ from `kv`'s key). -/
theorem find?_of_filter_singleton :
    ∀ (l : List (String × List String)) (kv : String × List String),
      l.filter (fun x => x.1.startsWith "#") = [kv] →
      l.find? (fun x => x.1 == kv.1) = some kv
  | [], kv, h => by simp at h
  | a :: l, kv, h => by
    have hkv : kv.1.startsWith "#" = true := by
      have hmem : kv ∈ (a :: l).filter (fun x => x.1.startsWith "#") := by
        rw [h]
        exact List.mem_singleton.mpr rfl
      exact (List.mem_filter.mp hmem).2
    by_cases hp : a.1.startsWith "#" = true
    · simp [List.filter_cons, hp] at h
      obtain ⟨ha, -⟩ := h
      subst ha
      rw [List.find?_cons]
      simp
    · simp only [List.filter_cons, hp, if_false] at h
      have hne : (a.1 == kv.1) = false := by
        cases hb : (a.1 == kv.1) with
        | false => rfl
        | true =>
          have hae : a.1 = kv.1 := by simpa using hb
          rw [hae] at hp
          exact absurd hkv hp
      rw [List.find?_cons]
      simp only [hne]
      exact find?_of_filter_singleton l kv h

/-- A character of the hex class has a hex digit value. -/
theorem isSome_hexDigit? {c : Char} (h : isHexChar c = true) :
    (hexDigit? c).isSome = true := by
  unfold isHexChar at h
  unfold hexDigit?
  by_cases h1 : c.isDigit = true
  · rw [if_pos h1]; rfl
  · rw [if_neg h1]
    by_cases h2 : (97 ≤ c.toNat && c.toNat ≤ 102) = true
    · rw [if_pos h2]; rfl
    · rw [if_neg h2]
      by_cases h3 : (65 ≤ c.toNat && c.toNat ≤ 70) = true
      · rw [if_pos h3]; rfl
      · exfalso
        rw [Bool.or_eq_true, Bool.or_eq_true] at h
        rcases h with (h | h) | h
        · exact h1 h
        · exact h2 h
        · exact h3 h

/-- `parseInt` on a hex-class character yields exactly `hexVal`. -/
theorem hexDigit?_eq {c : Char} (h : isHexChar c = true) :
    hexDigit? c = some (hexVal c) := by
  have hs := isSome_hexDigit? h
  unfold hexVal
  cases ho : hexDigit? c with
  | none => rw [ho] at hs; simp at hs
  | some p => rfl

/-- The character at index 32 of a valid 64-character hex key is in the hex
class. -/
theorem isHexChar_getD_of_valid {s : String} (h : isValid32ByteHex s = true) :
    isHexChar (s.data.getD 32 'x') = true := by
  unfold isValid32ByteHex at h
  rw [Bool.and_eq_true] at h
  obtain ⟨hlen, hall⟩ := h
  have hlen' : s.data.length = 64 := by
    rw [String.length_data]
    exact beq_iff_eq.mp hlen
  have h32 : 32 < s.data.length := by omega
  have hmem : s.data.getD 32 'x' ∈ s.data := by
    rw [List.getD_eq_getElem?_getD, List.getElem?_eq_getElem h32]
    exact List.getElem_mem h32
  exact List.all_eq_true.mp hall _ hmem

/-- C5: `getFilterPubkeyOffset` returns `-1` unless all the spec's
eligibility conditions hold, and when they all hold it returns the value of
the hex digit at index 32 of the single tag value plus 8.  (The function is
total, so it never raises.) -/
theorem filterOffset_matches_spec (f : Filter) :
    getFilterPubkeyOffset f
      = if specFilterEligible f then specFilterOffset f else -1 := by
  simp only [getFilterPubkeyOffset]
  by_cases hids : presentNonempty f.ids = true
  · rw [if_pos hids, if_neg (by simp [specFilterEligible, absentOrEmpty_eq, hids])]
  rw [if_neg hids]
  by_cases hauthors : presentNonempty f.authors = true
  · rw [if_pos hauthors,
      if_neg (by simp [specFilterEligible, absentOrEmpty_eq, hauthors])]
  rw [if_neg hauthors]
  by_cases hsince : numTruthy f.since = true
  · rw [if_pos hsince, if_neg (by simp [specFilterEligible, absentOrZero_eq, hsince])]
  rw [if_neg hsince]
  by_cases huntil : numTruthy f.untilT = true
  · rw [if_pos huntil, if_neg (by simp [specFilterEligible, absentOrZero_eq, huntil])]
  rw [if_neg huntil]
  by_cases hsearch : strTruthy f.search = true
  · rw [if_pos hsearch,
      if_neg (by simp [specFilterEligible, absentOrBlank_eq, hsearch])]
  rw [if_neg hsearch]
  by_cases hk : (f.kinds.elim false fun ks => ks.length == 1) = true
  swap
  · rw [if_pos hk, if_neg (by simp [specFilterEligible, singleKind_eq, hk])]
  rw [if_neg (not_not_intro hk)]
  have htk : ((f.tags.map Prod.fst).filter fun k => k.startsWith "#")
      = (specFilterTagPairs f).map Prod.fst := by
    unfold specFilterTagPairs
    rw [List.filter_map]
    rfl
  rw [htk]
  by_cases hlen1 : (specFilterTagPairs f).length = 1
  swap
  · rw [if_pos (by rw [List.length_map]; exact hlen1),
      if_neg (by simp [specFilterEligible, hlen1])]
  rw [if_neg (by rw [List.length_map]; exact not_not_intro hlen1)]
  obtain ⟨kv, hkv⟩ := List.length_eq_one.mp hlen1
  rw [hkv]
  simp only [List.map_cons, List.map_nil, List.headD_cons]
  have hfind : f.tags.find? (fun x => x.1 == kv.1) = some kv :=
    find?_of_filter_singleton f.tags kv hkv
  rw [hfind]
  simp only [Option.map_some', Option.getD_some]
  by_cases hval : kv.2.length = 1 ∧ isValid32ByteHex (kv.2.headD "") = true
  swap
  · rw [if_pos ?hbad, if_neg ?helig]
    case hbad =>
      by_cases h1 : kv.2.length = 1
      · exact Or.inr fun h2 => hval ⟨h1, h2⟩
      · exact Or.inl h1
    case helig =>
      simp only [specFilterEligible, hkv, List.headD_cons, Bool.and_eq_true,
        beq_iff_eq]
      intro hx
      exact hval ⟨hx.1.1.2, hx.1.2⟩
  rw [if_neg (fun hd => hd.elim (fun h1 => h1 hval.1) (fun h2 => h2 hval.2))]
  have hfids : presentNonempty f.ids = false := Bool.eq_false_iff.mpr hids
  have hfauthors : presentNonempty f.authors = false := Bool.eq_false_iff.mpr hauthors
  have hfsince : numTruthy f.since = false := Bool.eq_false_iff.mpr hsince
  have hfuntil : numTruthy f.untilT = false := Bool.eq_false_iff.mpr huntil
  have hfsearch : strTruthy f.search = false := Bool.eq_false_iff.mpr hsearch
  have hval2' : isValid32ByteHex (kv.2.head?.getD "") = true := by
    rw [← List.headD_eq_head?_getD]
    exact hval.2
  by_cases hp : kv.1 = "#p"
  · rw [if_pos hp]
    by_cases h3 : (f.kinds.getD []).headD 0 = 3
    · have h3' : (f.kinds.getD []).head?.getD 0 = 3 := by
        rw [← List.headD_eq_head?_getD]
        exact h3
      rw [if_pos h3, hexDigit?_eq (isHexChar_getD_of_valid hval.2),
        if_pos (by
          simp [specFilterEligible, absentOrEmpty_eq, absentOrZero_eq,
            absentOrBlank_eq, singleKind_eq, hfids, hfauthors, hfsince,
            hfuntil, hfsearch, hk, hkv, hval.1, hval2', hp, h3'])]
      unfold specFilterOffset
      rw [hkv]
      rfl
    · rw [if_neg h3, if_neg (by
        simp only [specFilterEligible, hkv, List.headD_cons, Bool.and_eq_true,
          Bool.or_eq_true, beq_iff_eq, hp]
        intro hx
        rcases hx.2 with (h | h) | h
        · exact h3 h.2
        · exact absurd h.1 (by decide)
        · exact absurd h.1 (by decide))]
  · rw [if_neg hp]
    by_cases he : kv.1 = "#e"
    · rw [if_pos he]
      by_cases h7 : (f.kinds.getD []).headD 0 = 7
      · have h7' : (f.kinds.getD []).head?.getD 0 = 7 := by
          rw [← List.headD_eq_head?_getD]
          exact h7
        rw [if_pos h7, hexDigit?_eq (isHexChar_getD_of_valid hval.2),
          if_pos (by
            simp [specFilterEligible, absentOrEmpty_eq, absentOrZero_eq,
              absentOrBlank_eq, singleKind_eq, hfids, hfauthors, hfsince,
              hfuntil, hfsearch, hk, hkv, hval.1, hval2', he, h7'])]
        unfold specFilterOffset
        rw [hkv]
        rfl
      · rw [if_neg h7, if_neg (by
          simp only [specFilterEligible, hkv, List.headD_cons, Bool.and_eq_true,
            Bool.or_eq_true, beq_iff_eq, he]
          intro hx
          rcases hx.2 with (h | h) | h
          · exact absurd h.1 (by decide)
          · exact h7 h.2
          · exact absurd h.1 (by decide))]
    · rw [if_neg he]
      by_cases hE : kv.1 = "#E"
      · rw [if_pos hE]
        by_cases h1111 : (f.kinds.getD []).headD 0 = 1111
        · have h1111' : (f.kinds.getD []).head?.getD 0 = 1111 := by
            rw [← List.headD_eq_head?_getD]
            exact h1111
          rw [if_pos h1111, hexDigit?_eq (isHexChar_getD_of_valid hval.2),
            if_pos (by
              simp [specFilterEligible, absentOrEmpty_eq, absentOrZero_eq,
                absentOrBlank_eq, singleKind_eq, hfids, hfauthors, hfsince,
                hfuntil, hfsearch, hk, hkv, hval.1, hval2', hE, h1111'])]
          unfold specFilterOffset
          rw [hkv]
          rfl
        · rw [if_neg h1111, if_neg (by
            simp only [specFilterEligible, hkv, List.headD_cons,
              Bool.and_eq_true, Bool.or_eq_true, beq_iff_eq, hE]
            intro hx
            rcases hx.2 with (h | h) | h
            · exact absurd h.1 (by decide)
            · exact absurd h.1 (by decide)
            · exact h1111 h.2)]
      · have helig : ¬ (specFilterEligible f = true) := by
          simp only [specFilterEligible, hkv, List.headD_cons,
            Bool.and_eq_true, Bool.or_eq_true, beq_iff_eq]
          intro hx
          rcases hx.2 with (h | h) | h
          · exact hp h.1
          · exact he h.1
          · exact hE h.1
        rw [if_neg hE, if_neg helig]

end NostrHLL
